import Mathlib

/-
Verification development for the ResearchAI ingestion/retrieval pipeline.

The definitions below are a shallow embedding of the JavaScript source:
  - `chunkText` and its helpers embed the sliding-window chunker of
    backend/ingestInfo.js (`chunkText`).
  - `match_information` embeds the SQL search function of create-table.sql.
  - `retrieveInformation`, `retrieveByMetadataField`, `retrieveByName` and
    `getEnhancedAnswer` embed backend/retrieveInfo.js, with the external
    collaborators (embedding model, chat model, vector RPC outcome) supplied
    by an explicit environment record.
  - `extractMetadataWithAI`, `clearDatabase`, `ingestAndEmbed`,
    `insertEmbeddedInfoToSupabase` and `runIngestion` embed
    backend/ingestInfo.js, again over an explicit environment.

Strings are modelled with Lean `String`; word splitting is performed on the
underlying character list.  JavaScript numbers used as array indices and
counts are modelled as `Nat`/`Int`; the SQL float `similarity` is modelled
as `ℚ` (the ordering/threshold/limit facts proved about it hold in any
linearly ordered field).
-/

/-- Whitespace test used by the chunker model (JS regex class `\s`). -/
def isWs (c : Char) : Bool := c.isWhitespace

/-- Splits a character list at every whitespace character, keeping the
(possibly empty) fields between them.  After discarding empty fields this
coincides with JS `text.split(/\s+/)` followed by
`.filter(word => word.length > 0)`, since splitting on a run of whitespace
produces only empty extra fields. -/
def splitOnWs : List Char → List (List Char)
  | [] => [[]]
  | c :: cs =>
    if isWs c then [] :: splitOnWs cs
    else
      match splitOnWs cs with
      | [] => [[c]]
      | w :: ws => (c :: w) :: ws

/-- The whitespace-delimited words of a character list:
`text.split(/\s+/).filter(word => word.length > 0)`. -/
def wordsOf (l : List Char) : List (List Char) :=
  (splitOnWs l).filter (fun w => w.length > 0)

/-- Words of a string (see `wordsOf`). -/
def wordsOfStr (s : String) : List (List Char) := wordsOf s.data

/-- `words.join(' ')`: interleaves a single space between words. -/
def joinSp : List (List Char) → List Char
  | [] => []
  | [w] => w
  | w :: ws => w ++ ' ' :: joinSp ws

/-- JS `String.prototype.trim`: strips leading and trailing whitespace. -/
def trimChars (l : List Char) : List Char :=
  ((l.dropWhile isWs).reverse.dropWhile isWs).reverse

/-- `text.trim()` on a Lean string. -/
def trimStr (s : String) : String := String.mk (trimChars s.data)

/-- The `while (startIndex < words.length)` loop of `chunkText`
(backend/ingestInfo.js lines 33-48), written with explicit fuel;
`none` means the fuel ran out (`chunkText_total` below shows the fuel
supplied by `chunkText` never does).  `startIndex` is an `Int` exactly as a
JS number can go negative after `startIndex += (chunkSize - overlap)`.
The slice `words.slice(startIndex, endIndex)` is modelled with
`take`/`drop`; at every reachable call `startIndex ≥ 0` (a negative value
is produced only immediately before the `break` fires), so the `toNat`
clamping agrees with JS `Array.prototype.slice`. -/
def chunkLoop (words : List (List Char)) (chunkSize overlap : Nat) :
    Nat → Int → List String → Option (List String)
  | 0, _, _ => none
  | fuel + 1, startIndex, chunks =>
    if startIndex < (words.length : Int) then
      let endIndex : Int := min (startIndex + (chunkSize : Int)) (words.length : Int)
      let chunkWords := (words.take endIndex.toNat).drop startIndex.toNat
      let chunk : String := String.mk (joinSp chunkWords)
      let chunks2 := chunks ++ [chunk]
      let startIndex2 := startIndex + (chunkSize : Int) - (overlap : Int)
      -- `if (startIndex <= chunks.length - 1 && overlap >= chunkSize) break;`
      if startIndex2 ≤ (chunks2.length : Int) - 1 ∧ chunkSize ≤ overlap then
        some chunks2
      else
        chunkLoop words chunkSize overlap fuel startIndex2 chunks2
    else
      some chunks

/-- `chunkText(text, chunkSize, overlap)` of backend/ingestInfo.js
(defaults in the source: chunkSize 300, overlap 50).  The loop is run with
fuel `words.length + 1`, which is proved sufficient (`chunkText_total`). -/
def chunkText (text : String) (chunkSize overlap : Nat) : Option (List String) :=
  let words := wordsOfStr text
  if words.length ≤ chunkSize then
    some [trimStr text]
  else
    chunkLoop words chunkSize overlap (words.length + 1) 0 []

/-- `chunkText` with the (never hit, see `chunkText_total`) out-of-fuel
case defaulted, for use inside the ingestion pipeline. -/
def chunkTextD (text : String) (chunkSize overlap : Nat) : List String :=
  (chunkText text chunkSize overlap).getD []

/-- Specification view of the chunker loop for `overlap < chunkSize`: the
list of word windows `words[i : i+C], words[i+s : i+s+C], ...` taken while
the window start is inside the list (`s = chunkSize - overlap`). -/
def windows (C s : Nat) (hs : 0 < s) (l : List (List Char)) (i : Nat) :
    List (List (List Char)) :=
  if i < l.length then
    ((l.drop i).take C) :: windows C s hs l (i + s)
  else []
termination_by l.length - i
decreasing_by omega

/-- JSONB values as stored in the `metadata` column. -/
inductive Jsonb where
  | null
  | bool (b : Bool)
  | num (n : Int)
  | str (s : String)
  | arr (elems : List Jsonb)
  | obj (fields : List (String × Jsonb))

mutual

/-- Structural equality of JSONB values. -/
def jEq : Jsonb → Jsonb → Bool
  | .null, .null => true
  | .bool a, .bool b => a == b
  | .num a, .num b => a == b
  | .str a, .str b => a == b
  | .arr as, .arr bs => jEqList as bs
  | .obj as, .obj bs => jEqFields as bs
  | _, _ => false

/-- Elementwise equality of JSONB arrays. -/
def jEqList : List Jsonb → List Jsonb → Bool
  | [], [] => true
  | a :: as, b :: bs => jEq a b && jEqList as bs
  | _, _ => false

/-- Fieldwise equality of JSONB objects. -/
def jEqFields : List (String × Jsonb) → List (String × Jsonb) → Bool
  | [], [] => true
  | (k, v) :: as, (k2, v2) :: bs => k == k2 && jEq v v2 && jEqFields as bs
  | _, _ => false

end

mutual

/-- PostgreSQL JSONB containment `target @> filter`: every key/value of a
filter object must be contained in the target object, every element of a
filter array must be contained in some element of the target array, and
scalars must be equal. -/
def jcontains : Jsonb → Jsonb → Bool
  | .obj target, .obj filt => jconFields target filt
  | .arr target, .arr filt => jconArr target filt
  | a, b => jEq a b

/-- All fields of the filter object are matched by the target fields. -/
def jconFields (target : List (String × Jsonb)) : List (String × Jsonb) → Bool
  | [] => true
  | (k, v) :: rest => jconLookup target k v && jconFields target rest

/-- Some target field has the given key and contains the given value. -/
def jconLookup : List (String × Jsonb) → String → Jsonb → Bool
  | [], _, _ => false
  | (k2, v2) :: rest, k, v => (k == k2 && jcontains v2 v) || jconLookup rest k v

/-- All elements of the filter array are matched in the target array. -/
def jconArr (target : List Jsonb) : List Jsonb → Bool
  | [] => true
  | f :: rest => jconAny target f && jconArr target rest

/-- Some element of the target array contains the given filter element. -/
def jconAny : List Jsonb → Jsonb → Bool
  | [], _ => false
  | t :: rest, f => jcontains t f || jconAny rest f

end

/-- An embedding vector. -/
abbrev Embedding := List ℚ

/-- A row of the `embeddedinfo` table (create-table.sql lines 4-11). -/
structure Row where
  id : Nat
  filename : String
  content : String
  metadata : Jsonb
  embedding : Embedding

/-- A row returned by `match_information`. -/
structure SearchResult where
  id : Nat
  content : String
  metadata : Jsonb
  similarity : ℚ

/-- The SQL function `match_information` (create-table.sql lines 18-46):
keep the rows passing the optional metadata containment filter whose
similarity `1 - (embedding <=> query_embedding)` strictly exceeds
`match_threshold`, order by cosine distance ascending (a stable sort, as
`ORDER BY` on the filtered scan), and apply `LIMIT match_count`.  The
pgvector distance operator `<=>` is supplied as the parameter `cosDist`. -/
def match_information (table : List Row) (cosDist : Embedding → Embedding → ℚ)
    (query_embedding : Embedding) (match_count : Nat) (match_threshold : ℚ)
    (filter : Option Jsonb) : List SearchResult :=
  let keep : Row → Bool := fun r =>
    (match filter with
     | none => true
     | some f => jcontains r.metadata f)
    && decide (match_threshold < 1 - cosDist r.embedding query_embedding)
  let ordered := (table.filter keep).mergeSort
    (fun a b => decide (cosDist a.embedding query_embedding ≤ cosDist b.embedding query_embedding))
  (ordered.take match_count).map fun r =>
    { id := r.id, content := r.content, metadata := r.metadata,
      similarity := 1 - cosDist r.embedding query_embedding }

/-- Field lookup in a JSONB object (`metadata.name` etc.). -/
def jGet (m : Jsonb) (key : String) : Option Jsonb :=
  match m with
  | .obj fields => (fields.find? fun kv => kv.1 == key).map fun kv => kv.2
  | _ => none

/-- JSONB string payload, if any. -/
def jStrOf : Jsonb → Option String
  | .str s => some s
  | _ => none

/-- JSONB number payload, if any. -/
def jNumOf : Jsonb → Option Int
  | .num n => some n
  | _ => none

/-- String elements of a JSONB array, if the value is an array. -/
def jArrStrings : Jsonb → Option (List String)
  | .arr xs => some (xs.filterMap jStrOf)
  | _ => none

/-- One-decimal rendering of a rational, standing in for JS
`Number.prototype.toFixed(1)` (round half up at the first decimal). -/
def toFixed1 (q : ℚ) : String :=
  let scaled : Int := ⌊q * 10 + 1 / 2⌋
  let a := scaled.natAbs
  (if scaled < 0 then "-" else "") ++ toString (a / 10) ++ "." ++ toString (a % 10)

/-- The `metaParts` block of `constructPromptContext`
(backend/retrieveInfo.js): selected metadata fields rendered as
`Name: ... | Location: ... | ...`. -/
def metaPartsOf (m : Jsonb) : List String :=
  (match (jGet m "name").bind jStrOf with
   | some v => ["Name: " ++ v]
   | none => []) ++
  (match (jGet m "location").bind jStrOf with
   | some v => ["Location: " ++ v]
   | none => []) ++
  (match (jGet m "role").bind jStrOf with
   | some v => ["Role: " ++ v]
   | none => []) ++
  (match (jGet m "skills").bind jArrStrings with
   | some xs => ["Skills: " ++ String.intercalate ", " xs]
   | none => []) ++
  (match (jGet m "chunk_number").bind jNumOf, (jGet m "total_chunks").bind jNumOf with
   | some a, some b => ["Chunk: " ++ toString a ++ "/" ++ toString b]
   | _, _ => [])

/-- `constructPromptContext(question, retrievedResults)` of
backend/retrieveInfo.js: a labelled `[Source N: filename (x% relevance)]`
section per retrieved record.  (As in the source, the `question` argument
is not used.) -/
def constructPromptContext (_question : String) (retrievedResults : List SearchResult) : String :=
  retrievedResults.enum.foldl
    (fun contextString p =>
      let result := p.2
      let source := ((jGet result.metadata "source_filename").bind jStrOf).getD "Unknown source"
      let parts := metaPartsOf result.metadata
      contextString
        ++ "\n[Source " ++ toString (p.1 + 1) ++ ": " ++ source
        ++ " (" ++ toFixed1 (result.similarity * 100) ++ "% relevance)]\n"
        ++ "Content: " ++ result.content ++ "\n"
        ++ (if parts.isEmpty then "" else "Metadata: " ++ String.intercalate " | " parts ++ "\n")
        ++ "---\n")
    ""

/-- `models.chat` of config.js. -/
def modelsChat : String := "gpt-4o-mini"

/-- `models.chatAdvanced` of config.js. -/
def modelsChatAdvanced : String := "gpt-4o"

/-- Environment of the query-side collaborators: the persisted table, the
pgvector distance, the embedding call for queries (which may throw), the
error outcome of the `match_information` RPC (if any), the chat completion
call of `getEnhancedAnswer` (throwing, or returning
`choices[0]?.message?.content`, possibly absent), and the reported token
usage. -/
structure QueryEnv where
  table : List Row
  cosDist : Embedding → Embedding → ℚ
  embedQuery : String → Except String Embedding
  searchError : Option String
  chatCompletion : String → String → Except String (Option String)
  tokensUsed : Option Nat

/-- `generateQueryEmbedding(query)` of backend/retrieveInfo.js. -/
def generateQueryEmbedding (env : QueryEnv) (query : String) : Except String Embedding :=
  env.embedQuery query

/-- The value returned by `retrieveInformation`. -/
structure RetrievalOutcome where
  data : Option (List SearchResult)
  error : Option String
  queryEmbedding : Option Embedding
  matchCount : Nat

/-- `retrieveInformation(userQuery, matchCount, matchThreshold,
metadataFilter)` of backend/retrieveInfo.js: embed the query (failure is
caught and returned as `{data:null, error}`), call the `match_information`
RPC (an RPC error is returned as `{data:null, error}`), otherwise return
the rows. -/
def retrieveInformation (env : QueryEnv) (userQuery : String) (matchCount : Nat)
    (matchThreshold : ℚ) (metadataFilter : Option Jsonb) : RetrievalOutcome :=
  match generateQueryEmbedding env userQuery with
  | .error e =>
    { data := none, error := some e, queryEmbedding := none, matchCount := matchCount }
  | .ok queryEmbedding =>
    match env.searchError with
    | some e =>
      { data := none, error := some e, queryEmbedding := some queryEmbedding,
        matchCount := matchCount }
    | none =>
      { data := some (match_information env.table env.cosDist queryEmbedding
          matchCount matchThreshold metadataFilter),
        error := none, queryEmbedding := some queryEmbedding, matchCount := matchCount }

/-- `retrieveByMetadataField(userQuery, field, value, matchCount)` of
backend/retrieveInfo.js. -/
def retrieveByMetadataField (env : QueryEnv) (userQuery field : String) (value : Jsonb)
    (matchCount : Nat) : RetrievalOutcome :=
  let metadataFilter := Jsonb.obj [(field, value)]
  retrieveInformation env userQuery matchCount 0 (some metadataFilter)

/-- `retrieveByName(name, matchCount)` of backend/retrieveInfo.js. -/
def retrieveByName (env : QueryEnv) (name : String) (matchCount : Nat) : RetrievalOutcome :=
  let metadataFilter := Jsonb.obj [("name", Jsonb.str name)]
  retrieveInformation env ("Information about " ++ name) matchCount 0 (some metadataFilter)

/-- An entry of the `sources` array of `getEnhancedAnswer`. -/
structure SourceEntry where
  sourceNumber : Nat
  filename : String
  similarity : ℚ
  similarityPercent : String
  contentPreview : String
  metadata : Jsonb

/-- The `context` object of `getEnhancedAnswer`. -/
structure AnswerContext where
  retrievedCount : Nat
  model : Option String
  tokensUsed : Option Nat

/-- The value returned by `getEnhancedAnswer`. -/
structure EnhancedAnswer where
  answer : Option String
  sources : Option (List SourceEntry)
  context : Option AnswerContext
  error : Option String

/-- The canned no-context answer of `getEnhancedAnswer`
(backend/retrieveInfo.js lines 371-377). -/
def noContextAnswer : String :=
  "I couldn\x27t find any relevant information in the knowledge base to answer your question. Please try rephrasing your question or ensure the relevant data has been ingested."

/-- The system prompt of `getEnhancedAnswer`. -/
def enhancedSystemPrompt : String :=
  "You are a knowledgeable research assistant with access to a specialized knowledge base. \nYour role is to provide comprehensive, accurate answers based on the retrieved information.\n\nGuidelines:\n- Synthesize information from multiple sources when available\n- Always cite your sources using the format [Source X]\n- If information is incomplete or unclear, acknowledge the limitations\n- Provide clear, well-structured responses\n- Use bullet points or numbered lists for complex information\n- If the retrieved information doesn\x27t fully answer the question, say so\n- Be concise but thorough"

/-- The user prompt of `getEnhancedAnswer`, assembled from the context
block and the question. -/
def enhancedUserPrompt (contextString question : String) : String :=
  "Based on the following retrieved information from the knowledge base, please answer the user\x27s question.\n\n## Retrieved Context:\n"
    ++ contextString
    ++ "\n\n## User\x27s Question:\n"
    ++ question
    ++ "\n\n## Instructions:\n1. Analyze all retrieved information carefully\n2. Synthesize a comprehensive answer\n3. Cite sources using [Source X] format\n4. Acknowledge if information is incomplete\n5. Be accurate and helpful"

/-- `getEnhancedAnswer(question, matchCount, matchThreshold)` of
backend/retrieveInfo.js lines 358-473: retrieve, and on
`result.error || !result.data || result.data.length === 0` return the
canned answer with empty sources, `retrievedCount: 0` and `error: null`;
otherwise build the context prompt, call the chat model (a thrown error is
caught into `{answer:null, ..., error}`; a missing or empty completion
yields the fixed generation-failure error), and on success return the
generated answer plus formatted sources and context. -/
def getEnhancedAnswer (env : QueryEnv) (question : String) (matchCount : Nat)
    (matchThreshold : ℚ) : EnhancedAnswer :=
  let result := retrieveInformation env question matchCount matchThreshold none
  match result.error, result.data with
  | some _, _ =>
    { answer := some noContextAnswer, sources := some [],
      context := some { retrievedCount := 0, model := none, tokensUsed := none },
      error := none }
  | none, none =>
    { answer := some noContextAnswer, sources := some [],
      context := some { retrievedCount := 0, model := none, tokensUsed := none },
      error := none }
  | none, some rows =>
    if rows.isEmpty then
      { answer := some noContextAnswer, sources := some [],
        context := some { retrievedCount := 0, model := none, tokensUsed := none },
        error := none }
    else
      let contextString := constructPromptContext question rows
      match env.chatCompletion enhancedSystemPrompt (enhancedUserPrompt contextString question) with
      | .error e =>
        { answer := none, sources := none, context := none, error := some e }
      | .ok generated =>
        match generated with
        | none =>
          { answer := none, sources := none, context := none,
            error := some "Failed to generate answer from GPT-4o" }
        | some generatedAnswer =>
          if generatedAnswer = "" then
            { answer := none, sources := none, context := none,
              error := some "Failed to generate answer from GPT-4o" }
          else
            { answer := some generatedAnswer,
              sources := some (rows.enum.map fun p =>
                { sourceNumber := p.1 + 1,
                  filename := ((jGet p.2.metadata "source_filename").bind jStrOf).getD "Unknown",
                  similarity := p.2.similarity,
                  similarityPercent := toFixed1 (p.2.similarity * 100) ++ "%",
                  contentPreview := String.mk (p.2.content.data.take 200)
                    ++ (if 200 < p.2.content.data.length then "..." else ""),
                  metadata := p.2.metadata }),
              context := some { retrievedCount := rows.length,
                                model := some modelsChatAdvanced,
                                tokensUsed := env.tokensUsed },
              error := none }

/-- Environment of the ingestion-side collaborators: the outcome of the
`delete` used by `clearDatabase`, the directory read, the metadata chat
call (model call plus `JSON.parse`, which may throw), the per-chunk
embedding call, the per-record insert outcome (by record position), and
the clock (`new Date().toISOString()`). -/
structure IngestEnv where
  deleteError : Option String
  files : Except String (List (String × String))
  chatExtract : String → Except String (List (String × Jsonb))
  embed : String → Except String Embedding
  insertError : Nat → Option String
  now : String

/-- The value returned by `clearDatabase`. -/
structure ClearResult where
  success : Bool
  error : Option String

/-- `clearDatabase()` of backend/ingestInfo.js lines 257-276: a delete
error is caught and reported via `{success:false, error}`; the function
itself never throws. -/
def clearDatabase (env : IngestEnv) : ClearResult :=
  match env.deleteError with
  | none => { success := true, error := none }
  | some e => { success := false, error := some e }

/-- `readInfoFiles()` outcome: the list of `{filename, content}` pairs, or
the thrown directory-read error. -/
def readInfoFiles (env : IngestEnv) : Except String (List (String × String)) :=
  env.files

/-- `generateEmbedding(content)` of backend/ingestInfo.js. -/
def generateEmbedding (env : IngestEnv) (content : String) : Except String Embedding :=
  env.embed content

/-- Index of the last `.` in a filename's characters, if any. -/
def lastDotIndex (l : List Char) : Option Nat :=
  (l.enum.filterMap fun p => if p.2 = '.' then some p.1 else none).getLast?

/-- `path.extname(filename)` for a plain (separator-free) filename: the
suffix from the last dot, empty when there is no dot or the only dot is
the leading character. -/
def extname (s : String) : String :=
  match lastDotIndex s.data with
  | none => ""
  | some 0 => ""
  | some i => String.mk (s.data.drop i)

/-- `path.extname(filename).slice(1) || 'txt'` of `extractMetadataWithAI`. -/
def fileTypeOf (filename : String) : String :=
  let e := (extname filename).data.drop 1
  if e.isEmpty then "txt" else String.mk e

/-- JS object-literal update `{...fields, k: v}`: an existing key keeps its
position and gets the new value, a new key is appended. -/
def objSet (fields : List (String × Jsonb)) (k : String) (v : Jsonb) :
    List (String × Jsonb) :=
  if fields.any fun kv => kv.1 == k then
    fields.map fun kv => if kv.1 == k then (k, v) else kv
  else
    fields ++ [(k, v)]

/-- Iterated `objSet`. -/
def objSetMany (fields : List (String × Jsonb)) (updates : List (String × Jsonb)) :
    List (String × Jsonb) :=
  updates.foldl (fun acc kv => objSet acc kv.1 kv.2) fields

/-- `extractMetadataWithAI(content, filename)` of backend/ingestInfo.js
lines 60-135: on success, the extracted fields merged (JS spread) with the
four system fields `source_filename`, `file_type`, `extracted_at`,
`extraction_model`; on a thrown model/parse error, exactly
`source_filename`, `file_type`, `extracted_at` and `extraction_error`
(note: no `extraction_model`).  The function never throws. -/
def extractMetadataWithAI (env : IngestEnv) (content filename : String) :
    List (String × Jsonb) :=
  match env.chatExtract content with
  | .ok extractedMetadata =>
    objSetMany extractedMetadata
      [("source_filename", .str filename),
       ("file_type", .str (fileTypeOf filename)),
       ("extracted_at", .str env.now),
       ("extraction_model", .str modelsChat)]
  | .error e =>
    [("source_filename", .str filename),
     ("file_type", .str (fileTypeOf filename)),
     ("extracted_at", .str env.now),
     ("extraction_error", .str e)]

/-- A buffered record of the ingestion pipeline (one per embedded chunk). -/
structure EmbeddedRecord where
  filename : String
  content : String
  embedding : Embedding
  metadata : List (String × Jsonb)
  createdAt : String

/-- The per-chunk embedding loop of `ingestAndEmbed` (index `i`): each
chunk is embedded and buffered in order; a thrown embedding error stops
the loop for this document (records already buffered are kept, as the
pushes to the global `embeddedResults` already happened in the source) and
is reported as the second component. -/
def embedChunksAux (env : IngestEnv) (filename : String)
    (fileMetadata : List (String × Jsonb)) (totalChunks : Nat) :
    List String → Nat → List EmbeddedRecord × Option String
  | [], _ => ([], none)
  | chunk :: rest, i =>
    match generateEmbedding env chunk with
    | .error e => ([], some e)
    | .ok embedding =>
      let chunkMetadata := objSetMany fileMetadata
        [("chunk_index", .num (i : Int)),
         ("chunk_number", .num ((i : Int) + 1)),
         ("total_chunks", .num (totalChunks : Int)),
         ("chunk_size_chars", .num (chunk.length : Int)),
         -- chunk.split(/\s+/).length: equals the word count for the
         -- single-space-joined chunk strings produced by chunkText
         ("chunk_size_words", .num ((wordsOfStr chunk).length : Int))]
      let record : EmbeddedRecord :=
        { filename := filename, content := chunk, embedding := embedding,
          metadata := chunkMetadata, createdAt := env.now }
      let tail := embedChunksAux env filename fileMetadata totalChunks rest (i + 1)
      (record :: tail.1, tail.2)

/-- The per-document body of `ingestAndEmbed`'s `try` block: metadata is
extracted once, the content chunked with the default parameters (300, 50),
and each chunk embedded. -/
def processFile (env : IngestEnv) (filename content : String) :
    List EmbeddedRecord × Option String :=
  let fileMetadata := extractMetadataWithAI env content filename
  let chunks := chunkTextD content 300 50
  embedChunksAux env filename fileMetadata chunks.length chunks 0

/-- `ingestAndEmbed()` of backend/ingestInfo.js lines 189-250: reads the
directory (a read error propagates), then processes the documents in
order; a per-document failure is caught and logged, the records buffered
before the failure remain, and the loop continues with the next file. -/
def ingestAndEmbed (env : IngestEnv) : Except String (List EmbeddedRecord) :=
  match readInfoFiles env with
  | .error e => .error e
  | .ok files =>
    .ok (files.foldl (fun acc f => acc ++ (processFile env f.1 f.2).1) [])

/-- `insertEmbeddedInfoToSupabase()` of backend/ingestInfo.js lines
282-323: one independent insert per buffered record; returns
`(successCount, errorCount)`. -/
def insertEmbeddedInfoToSupabase (env : IngestEnv)
    (embeddedResults : List EmbeddedRecord) : Nat × Nat :=
  embeddedResults.enum.foldl
    (fun counts p =>
      match env.insertError p.1 with
      | none => (counts.1 + 1, counts.2)
      | some _ => (counts.1, counts.2 + 1))
    (0, 0)

/-- The value returned by `runIngestion` (the failure return of the source
carries no counts, hence the `Option`s). -/
structure IngestionResult where
  success : Bool
  filesProcessed : Option Nat
  chunksCreated : Option Nat
  error : Option String
  message : String

/-- `runIngestion(clearFirst)` of backend/ingestInfo.js lines 330-390.
The global `embeddedResults` buffer is reset at the start of the run
(modelled by local accumulation).  When `clearFirst` is set the source
awaits `clearDatabase()` but never reads the returned `{success, error}`
(`clearDatabase` catches its own failure), so the clear outcome is bound
and discarded here exactly as there.  The only exception that can escape
the `try` block is the directory-read error of `ingestAndEmbed`; insert
failures only lower the success count. -/
def runIngestion (env : IngestEnv) (clearFirst : Bool) : IngestionResult :=
  let _clearOutcome := if clearFirst then some (clearDatabase env) else none
  match ingestAndEmbed env with
  | .error e =>
    { success := false, filesProcessed := none, chunksCreated := none,
      error := some e, message := "Ingestion failed" }
  | .ok embeddedResults =>
    let _counts := insertEmbeddedInfoToSupabase env embeddedResults
    { success := true,
      filesProcessed := some ((embeddedResults.map fun r => r.filename).dedup.length),
      chunksCreated := some embeddedResults.length,
      error := none,
      message := "Ingestion completed successfully" }

/-- Concrete query environment witnessing the empty-retrieval path: an
empty table, so every search returns no rows. -/
def emptyTableEnv : QueryEnv :=
  { table := [],
    cosDist := fun _ _ => 0,
    embedQuery := fun _ => .ok [1],
    searchError := none,
    chatCompletion := fun _ _ => .ok (some "answer"),
    tokensUsed := none }

/-- Concrete query environment whose embedding call fails. -/
def embedFailEnv : QueryEnv :=
  { table := [⟨1, "a.txt", "hello", .obj [], [1]⟩],
    cosDist := fun _ _ => 0,
    embedQuery := fun _ => .error "rate limit exceeded",
    searchError := none,
    chatCompletion := fun _ _ => .ok (some "answer"),
    tokensUsed := none }

/-- Concrete ingestion environment in which the initial delete fails but
everything downstream succeeds. -/
def deleteFailEnv : IngestEnv :=
  { deleteError := some "delete failed",
    files := .ok [("info.txt", "hello world")],
    chatExtract := fun _ => .ok [],
    embed := fun _ => .ok [1],
    insertError := fun _ => none,
    now := "2026-01-01T00:00:00.000Z" }

/-- Concrete ingestion environment whose metadata-extraction call throws. -/
def extractFailEnv : IngestEnv :=
  { deleteError := none,
    files := .ok [("a.txt", "x")],
    chatExtract := fun _ => .error "model unavailable",
    embed := fun _ => .ok [],
    insertError := fun _ => none,
    now := "2026-01-01T00:00:00.000Z" }

/-- `splitOnWs` always produces at least one field. -/
theorem splitOnWs_ne_nil (l : List Char) : splitOnWs l ≠ [] := by
  induction l with
  | nil => simp [splitOnWs]
  | cons c cs ih =>
    by_cases h : isWs c
    · simp [splitOnWs, h]
    · cases hs : splitOnWs cs with
      | nil => simp [splitOnWs, h, hs]
      | cons w ws => simp [splitOnWs, h, hs]

/-- Prepending a whitespace character starts a new (empty) field. -/
theorem splitOnWs_ws_cons (c : Char) (l : List Char) (h : isWs c = true) :
    splitOnWs (c :: l) = [] :: splitOnWs l := by
  simp [splitOnWs, h]

/-- Prepending a run of non-whitespace characters extends the first field. -/
theorem splitOnWs_word_append (w l : List Char) (hw : ∀ c ∈ w, isWs c = false)
    (h : List Char) (t : List (List Char)) (hl : splitOnWs l = h :: t) :
    splitOnWs (w ++ l) = (w ++ h) :: t := by
  induction w with
  | nil => simpa using hl
  | cons c cs ih =>
    have hc : isWs c = false := hw c (by simp)
    have ih2 := ih fun x hx => hw x (by simp [hx])
    rw [List.cons_append]
    have step : splitOnWs (c :: (cs ++ l)) =
        match splitOnWs (cs ++ l) with
        | [] => [[c]]
        | w :: ws => (c :: w) :: ws := by
      simp [splitOnWs, hc]
    rw [step, ih2]
    simp

/-- Splitting an all-whitespace list yields only empty fields. -/
theorem splitOnWs_allws (t : List Char) (ht : ∀ c ∈ t, isWs c = true) :
    splitOnWs t = List.replicate (t.length + 1) [] := by
  induction t with
  | nil => simp [splitOnWs]
  | cons c cs ih =>
    have hc : isWs c = true := ht c (by simp)
    rw [splitOnWs_ws_cons c cs hc, ih fun x hx => ht x (by simp [hx])]
    simp [List.replicate_succ]

/-- An all-whitespace suffix only contributes empty fields. -/
theorem splitOnWs_append_allws (l t : List Char) (ht : ∀ c ∈ t, isWs c = true) :
    splitOnWs (l ++ t) = splitOnWs l ++ List.replicate t.length [] := by
  induction l with
  | nil =>
    rw [List.nil_append, splitOnWs_allws t ht]
    simp [List.replicate_succ, splitOnWs]
  | cons c cs ih =>
    by_cases hc : isWs c
    · rw [List.cons_append, splitOnWs_ws_cons c _ hc, splitOnWs_ws_cons c cs hc, ih,
        List.cons_append]
    · cases hs : splitOnWs cs with
      | nil => exact absurd hs (splitOnWs_ne_nil cs)
      | cons w ws =>
        have hc' : isWs c = false := by simpa using hc
        have step : splitOnWs (c :: (cs ++ t)) =
            match splitOnWs (cs ++ t) with
            | [] => [[c]]
            | w :: ws => (c :: w) :: ws := by
          simp [splitOnWs, hc']
        have step2 : splitOnWs (c :: cs) =
            match splitOnWs cs with
            | [] => [[c]]
            | w :: ws => (c :: w) :: ws := by
          simp [splitOnWs, hc']
        rw [List.cons_append, step, ih, hs, step2, hs]
        simp

/-- An all-whitespace prefix only contributes empty fields. -/
theorem splitOnWs_allws_append (t l : List Char) (ht : ∀ c ∈ t, isWs c = true) :
    splitOnWs (t ++ l) = List.replicate t.length [] ++ splitOnWs l := by
  induction t with
  | nil => simp
  | cons c cs ih =>
    have hc : isWs c = true := ht c (by simp)
    rw [List.cons_append, splitOnWs_ws_cons c _ hc, ih fun x hx => ht x (by simp [hx])]
    simp [List.replicate_succ]

/-- Empty fields are dropped by the word filter. -/
theorem wordsOf_append_allws (l t : List Char) (ht : ∀ c ∈ t, isWs c = true) :
    wordsOf (l ++ t) = wordsOf l := by
  unfold wordsOf
  rw [splitOnWs_append_allws l t ht, List.filter_append]
  have : (List.replicate t.length ([] : List Char)).filter (fun w => w.length > 0) = [] := by
    rw [List.filter_eq_nil_iff]
    intro a ha
    rw [List.eq_of_mem_replicate ha]
    simp
  rw [this, List.append_nil]

/-- Empty fields are dropped by the word filter (prefix version). -/
theorem wordsOf_allws_append (t l : List Char) (ht : ∀ c ∈ t, isWs c = true) :
    wordsOf (t ++ l) = wordsOf l := by
  unfold wordsOf
  rw [splitOnWs_allws_append t l ht, List.filter_append]
  have : (List.replicate t.length ([] : List Char)).filter (fun w => w.length > 0) = [] := by
    rw [List.filter_eq_nil_iff]
    intro a ha
    rw [List.eq_of_mem_replicate ha]
    simp
  rw [this, List.nil_append]

/-- Trimming does not change the word sequence. -/
theorem wordsOf_trimChars (l : List Char) : wordsOf (trimChars l) = wordsOf l := by
  have h1 : wordsOf l = wordsOf (l.dropWhile isWs) := by
    conv_lhs => rw [← List.takeWhile_append_dropWhile (p := isWs) (l := l)]
    exact wordsOf_allws_append _ _ fun c hc => List.mem_takeWhile_imp hc
  set m := l.dropWhile isWs with hm
  have h2 : m = trimChars l ++ (m.reverse.takeWhile isWs).reverse := by
    conv_lhs => rw [← List.reverse_reverse m,
      ← List.takeWhile_append_dropWhile (p := isWs) (l := m.reverse)]
    rw [List.reverse_append]
    rfl
  rw [h1, h2, wordsOf_append_allws]
  intro c hc
  exact List.mem_takeWhile_imp (List.mem_reverse.mp hc)

/-- Words of a trimmed string. -/
theorem wordsOfStr_trimStr (s : String) : wordsOfStr (trimStr s) = wordsOfStr s :=
  wordsOf_trimChars s.data

/-- Every field produced by `splitOnWs` is whitespace-free. -/
theorem mem_splitOnWs_nonws (l : List Char) (w : List Char) (hw : w ∈ splitOnWs l) :
    ∀ c ∈ w, isWs c = false := by
  induction l generalizing w with
  | nil =>
    simp [splitOnWs] at hw
    simp [hw]
  | cons c cs ih =>
    by_cases hc : isWs c
    · rw [splitOnWs_ws_cons c cs hc] at hw
      rcases List.mem_cons.mp hw with hw | hw
      · simp [hw]
      · exact ih w hw
    · have hc' : isWs c = false := by simpa using hc
      cases hs : splitOnWs cs with
      | nil => exact absurd hs (splitOnWs_ne_nil cs)
      | cons w2 ws2 =>
        have step : splitOnWs (c :: cs) = (c :: w2) :: ws2 := by
          simp [splitOnWs, hc', hs]
        rw [step] at hw
        rcases List.mem_cons.mp hw with hw | hw
        · subst hw
          intro x hx
          rcases List.mem_cons.mp hx with hx | hx
          · rw [hx]; exact hc'
          · exact ih w2 (by rw [hs]; exact List.mem_cons_self _ _) x hx
        · exact ih w (by rw [hs]; exact List.mem_cons_of_mem _ hw)

/-- Every word of a text is nonempty and whitespace-free. -/
theorem mem_wordsOf_props (l : List Char) (w : List Char) (hw : w ∈ wordsOf l) :
    w ≠ [] ∧ ∀ c ∈ w, isWs c = false := by
  unfold wordsOf at hw
  have h1 := List.of_mem_filter hw
  have h2 := List.mem_of_mem_filter hw
  refine ⟨?_, mem_splitOnWs_nonws l w h2⟩
  intro h
  subst h
  simp at h1

/-- A space is whitespace. -/
theorem isWs_space : isWs ' ' = true := by decide

/-- Splitting a space-joined list of nonempty whitespace-free words
recovers the words (the round-trip behind `chunk.join(' ')`). -/
theorem wordsOf_joinSp (ws : List (List Char))
    (h : ∀ w ∈ ws, w ≠ [] ∧ ∀ c ∈ w, isWs c = false) :
    wordsOf (joinSp ws) = ws := by
  induction ws with
  | nil => simp [joinSp, wordsOf, splitOnWs]
  | cons w rest ih =>
    obtain ⟨hw1, hw2⟩ := h w (by simp)
    cases rest with
    | nil =>
      have : joinSp [w] = w ++ [] := by simp [joinSp]
      rw [this]
      have hsplit : splitOnWs (w ++ []) = (w ++ []) :: [] :=
        splitOnWs_word_append w [] hw2 [] [] (by simp [splitOnWs])
      unfold wordsOf
      rw [hsplit]
      simp [List.filter_cons, List.length_pos.mpr hw1]
    | cons w2 rest2 =>
      have hjoin : joinSp (w :: w2 :: rest2) = w ++ ' ' :: joinSp (w2 :: rest2) := by
        simp [joinSp]
      rw [hjoin]
      have hsp : splitOnWs (' ' :: joinSp (w2 :: rest2)) = [] :: splitOnWs (joinSp (w2 :: rest2)) :=
        splitOnWs_ws_cons _ _ isWs_space
      cases hs : splitOnWs (joinSp (w2 :: rest2)) with
      | nil => exact absurd hs (splitOnWs_ne_nil _)
      | cons h2 t2 =>
        rw [hs] at hsp
        have hsplit := splitOnWs_word_append w (' ' :: joinSp (w2 :: rest2)) hw2 [] (h2 :: t2) hsp
        unfold wordsOf
        rw [hsplit]
        have ihr := ih fun x hx => h x (by simp [hx])
        unfold wordsOf at ihr
        rw [hs] at ihr
        simp only [List.filter_cons] at ihr ⊢
        simp only [List.append_nil]
        rw [if_pos (by simpa using List.length_pos.mpr hw1)]
        rw [ihr]

/-- `windows` past the end of the list. -/
theorem windows_eq_nil (C s : Nat) (hs : 0 < s) (l : List (List Char)) (i : Nat)
    (h : l.length ≤ i) : windows C s hs l i = [] := by
  rw [windows]
  simp [Nat.not_lt.mpr h]

/-- `windows` inside the list. -/
theorem windows_eq_cons (C s : Nat) (hs : 0 < s) (l : List (List Char)) (i : Nat)
    (h : i < l.length) :
    windows C s hs l i = ((l.drop i).take C) :: windows C s hs l (i + s) := by
  rw [windows]
  simp [h]

/-- Every window is a `take` of a `drop` of the word list. -/
theorem mem_windows (C s : Nat) (hs : 0 < s) (l : List (List Char)) (i : Nat)
    (w : List (List Char)) (hw : w ∈ windows C s hs l i) :
    ∃ j, w = (l.drop j).take C := by
  by_cases h : i < l.length
  · rw [windows_eq_cons C s hs l i h] at hw
    rcases List.mem_cons.mp hw with hw | hw
    · exact ⟨i, hw⟩
    · exact mem_windows C s hs l (i + s) w hw
  · rw [windows_eq_nil C s hs l i (by omega)] at hw
    simp at hw
termination_by l.length - i
decreasing_by omega

/-- Number of windows: the ceiling of `(length - i) / s`. -/
theorem windows_length (C s : Nat) (hs : 0 < s) (l : List (List Char)) (i : Nat)
    (h : i < l.length) :
    (windows C s hs l i).length = (l.length - i + s - 1) / s := by
  rw [windows_eq_cons C s hs l i h]
  by_cases h2 : i + s < l.length
  · have ih := windows_length C s hs l (i + s) h2
    rw [List.length_cons, ih]
    have hsplit : l.length - i + s - 1 = (l.length - (i + s) + s - 1) + s := by omega
    rw [hsplit, Nat.add_div_right _ hs]
  · rw [windows_eq_nil C s hs l (i + s) (by omega)]
    have h1 : 1 * s ≤ l.length - i + s - 1 := by omega
    have h2' : l.length - i + s - 1 < (1 + 1) * s := by omega
    simp [Nat.div_eq_of_lt_le h1 h2']
termination_by l.length - i
decreasing_by omega

/-- One step of the chunker loop for `overlap < chunkSize` matches one
window; iterating, the loop returns exactly the space-joined windows. -/
theorem chunkLoop_eq_windows (words : List (List Char)) (C O : Nat) (hO : O < C)
    (hs : 0 < C - O) :
    ∀ (fuel i : Nat) (acc : List String), words.length - i < fuel →
      chunkLoop words C O fuel (i : Int) acc =
        some (acc ++ (windows C (C - O) hs words i).map fun w => String.mk (joinSp w)) := by
  intro fuel
  induction fuel with
  | zero => intro i acc h; omega
  | succ fuel ih =>
    intro i acc hfuel
    by_cases hi : i < words.length
    · have hi' : (i : Int) < (words.length : Int) := by exact_mod_cast hi
      rw [chunkLoop, if_pos hi']
      have hslice : ((words.take (min ((i : Int) + (C : Int)) ((words.length : Int))).toNat).drop
          ((i : Int)).toNat) = (words.drop i).take C := by
        have hmin : (min ((i : Int) + (C : Int)) ((words.length : Int))).toNat
            = min (i + C) words.length := by
          omega
        rw [hmin, Int.toNat_natCast, List.drop_take]
        apply List.take_eq_take.mpr
        simp [List.length_drop]
        omega
      simp only [hslice]
      have hguard : ¬(((i : Int) + (C : Int) - (O : Int) ≤
          (((acc ++ [String.mk (joinSp ((words.drop i).take C))]).length : Int) - 1)) ∧ C ≤ O) := by
        rintro ⟨-, h2⟩
        omega
      rw [if_neg hguard]
      have hcast : (i : Int) + (C : Int) - (O : Int) = ((i + (C - O) : Nat) : Int) := by
        push_cast
        omega
      rw [hcast, ih (i + (C - O)) _ (by omega)]
      rw [windows_eq_cons C (C - O) hs words i hi]
      simp
    · have hi' : ¬((i : Int) < (words.length : Int)) := by exact_mod_cast hi
      rw [chunkLoop, if_neg hi', windows_eq_nil C (C - O) hs words i (by omega)]
      simp

/-- For `overlap < chunkSize` and more words than `chunkSize`, `chunkText`
returns exactly the space-joined word windows. -/
theorem chunkText_eq_windows (text : String) (C O : Nat) (hO : O < C) (hs : 0 < C - O)
    (hNC : C < (wordsOfStr text).length) :
    chunkText text C O =
      some ((windows C (C - O) hs (wordsOfStr text) 0).map fun w => String.mk (joinSp w)) := by
  unfold chunkText
  rw [if_neg (by omega)]
  have h := chunkLoop_eq_windows (wordsOfStr text) C O hO hs ((wordsOfStr text).length + 1) 0 []
    (by omega)
  simpa using h

/-- `String.mk` round-trip for word splitting. -/
theorem wordsOfStr_mk (l : List Char) : wordsOfStr (String.mk l) = wordsOf l := rfl

/-- The words of any window of a good word list are nonempty and
whitespace-free, so joining and re-splitting a window recovers it. -/
theorem window_join_words (l : List (List Char))
    (hl : ∀ w ∈ l, w ≠ [] ∧ ∀ c ∈ w, isWs c = false) (j C : Nat) :
    wordsOfStr (String.mk (joinSp ((l.drop j).take C))) = (l.drop j).take C := by
  rw [wordsOfStr_mk]
  apply wordsOf_joinSp
  intro w hw
  exact hl w (List.drop_subset j l (List.take_subset _ _ hw))

/-- Two consecutive windows share exactly `min O |second|` words: the
first `min O |second|` words of the later window are the last
`min O |second|` words of the earlier one. -/
theorem window_overlap (l : List (List Char)) (C O i : Nat) (hO : O < C)
    (h2 : i + (C - O) < l.length) :
    ((l.drop (i + (C - O))).take C).take
        (min O ((l.drop (i + (C - O))).take C).length) =
      ((l.drop i).take C).drop
        (((l.drop i).take C).length - min O ((l.drop (i + (C - O))).take C).length) := by
  set s := C - O with hsdef
  have hlenv : ((l.drop (i + s)).take C).length = min C (l.length - (i + s)) := by
    simp [List.length_take, List.length_drop]
  have hlenu : ((l.drop i).take C).length = min C (l.length - i) := by
    simp [List.length_take, List.length_drop]
  have hm : ((l.drop i).take C).length - min O ((l.drop (i + s)).take C).length = s := by
    rw [hlenu, hlenv]
    omega
  rw [hm, List.drop_take, List.drop_drop, List.take_take]
  apply List.take_eq_take.mpr
  rw [hlenv]
  simp [List.length_drop]
  omega

/-- The chunks produced from a good word list for `overlap < chunkSize`
overlap in sequence: each chunk starts with exactly
`min overlap (words of the chunk)` words, which are the final words of the
previous chunk. -/
theorem windows_chain_str (C O : Nat) (hO : O < C) (hs : 0 < C - O)
    (l : List (List Char)) (hl : ∀ w ∈ l, w ≠ [] ∧ ∀ c ∈ w, isWs c = false) (i : Nat) :
    List.Chain'
      (fun a b => (wordsOfStr b).take (min O (wordsOfStr b).length) =
        (wordsOfStr a).drop ((wordsOfStr a).length - min O (wordsOfStr b).length))
      ((windows C (C - O) hs l i).map fun w => String.mk (joinSp w)) := by
  by_cases hi : i < l.length
  · rw [windows_eq_cons C (C - O) hs l i hi]
    by_cases h2 : i + (C - O) < l.length
    · rw [windows_eq_cons C (C - O) hs l (i + (C - O)) h2]
      simp only [List.map_cons, List.chain'_cons]
      constructor
      · rw [window_join_words l hl i C, window_join_words l hl (i + (C - O)) C]
        exact window_overlap l C O i hO h2
      · have h3 := windows_chain_str C O hO hs l hl (i + (C - O))
        rw [windows_eq_cons C (C - O) hs l (i + (C - O)) h2] at h3
        simpa only [List.map_cons] using h3
    · rw [windows_eq_nil C (C - O) hs l (i + (C - O)) (by omega)]
      simp
  · rw [windows_eq_nil C (C - O) hs l i (by omega)]
    simp
termination_by l.length - i
decreasing_by omega

/-- De-overlapped windows concatenate to the tail of the word list. -/
theorem windows_flatten (C O : Nat) (hO : O < C) (hs : 0 < C - O)
    (l : List (List Char)) (i : Nat) :
    (((windows C (C - O) hs l i).map fun w => w.drop O).flatten) = l.drop (i + O) := by
  by_cases hi : i < l.length
  · rw [windows_eq_cons C (C - O) hs l i hi]
    rw [List.map_cons, List.flatten_cons]
    rw [windows_flatten C O hO hs l (i + (C - O))]
    have hwin : ((l.drop i).take C).drop O = (l.drop (i + O)).take (C - O) := by
      rw [List.drop_take, List.drop_drop]
    rw [hwin]
    have hrest : l.drop (i + (C - O) + O) = (l.drop (i + O)).drop (C - O) := by
      rw [List.drop_drop]
      congr 1
      omega
    rw [hrest, List.take_append_drop]
  · rw [windows_eq_nil C (C - O) hs l i (by omega)]
    have : l.drop (i + O) = [] := by
      apply List.drop_eq_nil_of_le
      omega
    simp [this]
termination_by l.length - i
decreasing_by omega

/-- When `overlap >= chunkSize`, the guard
`startIndex <= chunks.length - 1 && overlap >= chunkSize` fires right
after the first push, so the loop returns a single chunk. -/
theorem chunkLoop_break (words : List (List Char)) (C O fuel : Nat) (hO : C ≤ O)
    (hlen : 0 < words.length) :
    chunkLoop words C O (fuel + 1) 0 [] = some [String.mk (joinSp (words.take C))] := by
  rw [chunkLoop]
  rw [if_pos (by exact_mod_cast hlen : (0 : Int) < (words.length : Int))]
  have hslice : ((words.take ((min ((0 : Int) + (C : Int)) ((words.length : Int))).toNat)).drop
      (((0 : Int)).toNat)) = words.take C := by
    have hmin : (min ((0 : Int) + (C : Int)) ((words.length : Int))).toNat
        = min C words.length := by
      omega
    rw [hmin]
    simp only [Int.toNat_zero, List.drop_zero]
    apply List.take_eq_take.mpr
    omega
  simp only [hslice]
  have hguard : ((0 : Int) + (C : Int) - (O : Int) ≤
      ((((([] : List String)) ++ [String.mk (joinSp (words.take C))]).length : Int) - 1)) ∧
      C ≤ O := by
    refine ⟨?_, hO⟩
    simp
    omega
  rw [if_pos hguard]
  simp

/-- Claim C6: `chunkText` terminates on every input (the loop, run with
fuel `words.length + 1`, always returns a chunk list), and whenever the
text has more words than `chunkSize` and `overlap >= chunkSize` (advance
step ≤ 0), the loop is aborted after the first chunk, so exactly one chunk
is returned. -/
theorem chunkText_total (text : String) (C O : Nat) :
    ∃ chunks, chunkText text C O = some chunks ∧
      (C < (wordsOfStr text).length → C ≤ O → chunks.length = 1) := by
  by_cases hN : (wordsOfStr text).length ≤ C
  · exact ⟨[trimStr text], by simp [chunkText, hN], fun h _ => absurd h (by omega)⟩
  · by_cases hO : O < C
    · exact ⟨_, chunkText_eq_windows text C O hO (by omega) (by omega),
        fun _ h => absurd h (by omega)⟩
    · refine ⟨[String.mk (joinSp ((wordsOfStr text).take C))], ?_, fun _ _ => rfl⟩
      unfold chunkText
      rw [if_neg hN]
      exact chunkLoop_break (wordsOfStr text) C O (wordsOfStr text).length (by omega) (by omega)

/-- Witness for C6 at a concrete input with `overlap >= chunkSize`:
"a b c" has 3 > 1 words and overlap 2 ≥ chunkSize 1, and a single chunk
comes back. -/
theorem chunkText_total_witness :
    ∃ chunks, chunkText "a b c" 1 2 = some chunks ∧ chunks.length = 1 := by
  obtain ⟨chunks, h1, h2⟩ := chunkText_total "a b c" 1 2
  exact ⟨chunks, h1, h2 (by decide) (by decide)⟩

/-- Claim C1 (amended): for `overlap < chunkSize`, `chunkText` returns one
chunk equal to the trimmed text when the word count `N` is at most
`chunkSize C`, and otherwise exactly `⌈N / (C - O)⌉` chunks (not
`⌈(N-C)/(C-O)⌉ + 1` as claimed: the loop emits a window for every start
index `k⬝(C-O) < N`). -/
theorem chunkText_count (text : String) (C O : Nat) (hO : O < C) :
    ∃ chunks, chunkText text C O = some chunks ∧
      chunks.length = (if (wordsOfStr text).length ≤ C then 1
        else ((wordsOfStr text).length + (C - O) - 1) / (C - O)) ∧
      ((wordsOfStr text).length ≤ C → chunks = [trimStr text]) := by
  by_cases hN : (wordsOfStr text).length ≤ C
  · exact ⟨[trimStr text], by simp [chunkText, hN], by simp [hN], fun _ => rfl⟩
  · have hs : 0 < C - O := by omega
    refine ⟨_, chunkText_eq_windows text C O hO hs (by omega), ?_, fun h => absurd h hN⟩
    rw [if_neg hN, List.length_map,
      windows_length C (C - O) hs (wordsOfStr text) 0 (by omega)]
    simp

/-- Witness for C1 (amended) on a 9-word text with chunkSize 3, overlap 1:
the loop produces ⌈9/2⌉ = 5 chunks. -/
theorem chunkText_count_witness :
    ∃ chunks, chunkText "w1 w2 w3 w4 w5 w6 w7 w8 w9" 3 1 = some chunks ∧
      chunks.length = 5 := by
  obtain ⟨chunks, h1, h2, -⟩ := chunkText_count "w1 w2 w3 w4 w5 w6 w7 w8 w9" 3 1 (by decide)
  refine ⟨chunks, h1, ?_⟩
  rw [h2]
  decide

/-- Counterexample to Claim C1 as stated: for the 9-word text with
chunkSize 3 and overlap 1 the claimed count ⌈(N−C)/(C−O)⌉ + 1 =
⌈6/2⌉ + 1 = 4, but `chunkText` returns 5 chunks (starts 0, 2, 4, 6, 8). -/
theorem chunkText_count_counterexample :
    (wordsOfStr "w1 w2 w3 w4 w5 w6 w7 w8 w9").length = 9 ∧
    (chunkText "w1 w2 w3 w4 w5 w6 w7 w8 w9" 3 1).map List.length = some 5 ∧
    (9 - 3 + (3 - 1) - 1) / (3 - 1) + 1 = 4 ∧ (5 : Nat) ≠ 4 := by
  refine ⟨by decide, by decide, by decide, by decide⟩

/-- Claim C7 (amended): for `overlap < chunkSize`, each chunk after the
first starts with exactly `min O (its word count)` words shared with the
end of the previous chunk.  The shared count equals `O` whenever the later
chunk has at least `O` words; trailing chunks (not only the final one) may
be shorter than `O` words, in which case the whole later chunk is a suffix
of the earlier one. -/
theorem chunkText_overlap (text : String) (C O : Nat) (hO : O < C) :
    ∃ chunks, chunkText text C O = some chunks ∧
      List.Chain'
        (fun a b => (wordsOfStr b).take (min O (wordsOfStr b).length) =
          (wordsOfStr a).drop ((wordsOfStr a).length - min O (wordsOfStr b).length))
        chunks := by
  by_cases hN : (wordsOfStr text).length ≤ C
  · exact ⟨[trimStr text], by simp [chunkText, hN], by simp⟩
  · have hs : 0 < C - O := by omega
    refine ⟨_, chunkText_eq_windows text C O hO hs (by omega), ?_⟩
    exact windows_chain_str C O hO hs (wordsOfStr text)
      (fun w hw => mem_wordsOf_props text.data w hw) 0

/-- Witness for C7 (amended) at "a b c", chunkSize 2, overlap 1. -/
theorem chunkText_overlap_witness :
    ∃ chunks, chunkText "a b c" 2 1 = some chunks ∧
      List.Chain'
        (fun a b => (wordsOfStr b).take (min 1 (wordsOfStr b).length) =
          (wordsOfStr a).drop ((wordsOfStr a).length - min 1 (wordsOfStr b).length))
        chunks :=
  chunkText_overlap "a b c" 2 1 (by decide)

/-- Counterexample to Claim C7 as stated: chunking the 5-word text
"a b c d e" with chunkSize 4, overlap 3 yields the chunks
`["a b c d", "b c d e", "c d e", "d e", "e"]`; the chunk "d e" is NOT the
final chunk (that is "e"), yet it has only 2 words, so it cannot share
exactly 3 overlapping words with its predecessor "c d e". -/
theorem chunkText_overlap_counterexample :
    chunkText "a b c d e" 4 3 = some ["a b c d", "b c d e", "c d e", "d e", "e"] ∧
    (wordsOfStr "d e").length = 2 ∧ (2 : Nat) ≠ 3 := by
  refine ⟨by decide, by decide, by decide⟩

/-- Claim C8: for `overlap < chunkSize`, dropping the first `O` words of
every chunk after the first and concatenating reconstructs the original
word sequence of the text. -/
theorem chunkText_deoverlap (text : String) (C O : Nat) (hO : O < C) :
    ∃ first rest, chunkText text C O = some (first :: rest) ∧
      wordsOfStr first ++ (rest.map fun chunk => (wordsOfStr chunk).drop O).flatten =
        wordsOfStr text := by
  by_cases hN : (wordsOfStr text).length ≤ C
  · refine ⟨trimStr text, [], by simp [chunkText, hN], ?_⟩
    simp [wordsOfStr_trimStr]
  · have hs : 0 < C - O := by omega
    have h0 : 0 < (wordsOfStr text).length := by omega
    have hw := chunkText_eq_windows text C O hO hs (by omega)
    rw [windows_eq_cons C (C - O) hs (wordsOfStr text) 0 h0, List.map_cons] at hw
    refine ⟨_, _, hw, ?_⟩
    have hhead : wordsOfStr (String.mk (joinSp (((wordsOfStr text).drop 0).take C))) =
        ((wordsOfStr text).drop 0).take C :=
      window_join_words (wordsOfStr text) (fun w hw => mem_wordsOf_props text.data w hw) 0 C
    rw [hhead]
    have hmap : ((windows C (C - O) hs (wordsOfStr text) (0 + (C - O))).map
          fun w => String.mk (joinSp w)).map (fun chunk => (wordsOfStr chunk).drop O) =
        (windows C (C - O) hs (wordsOfStr text) (0 + (C - O))).map fun w => w.drop O := by
      rw [List.map_map]
      apply List.map_congr_left
      intro w hw2
      obtain ⟨j, hj⟩ := mem_windows C (C - O) hs (wordsOfStr text) (0 + (C - O)) w hw2
      subst hj
      simp only [Function.comp]
      rw [window_join_words (wordsOfStr text)
        (fun w hw => mem_wordsOf_props text.data w hw) j C]
    rw [hmap, windows_flatten C O hO hs (wordsOfStr text) (0 + (C - O))]
    have hC : 0 + (C - O) + O = C := by omega
    rw [hC]
    simp [List.take_append_drop]

/-- Witness for C8 at "a b c", chunkSize 2, overlap 1. -/
theorem chunkText_deoverlap_witness :
    ∃ first rest, chunkText "a b c" 2 1 = some (first :: rest) ∧
      wordsOfStr first ++ (rest.map fun chunk => (wordsOfStr chunk).drop 1).flatten =
        wordsOfStr "a b c" :=
  chunkText_deoverlap "a b c" 2 1 (by decide)

/-- Claim C2: every row returned by `match_information` has similarity
strictly greater than the threshold, the rows are sorted descending by
similarity (ascending by cosine distance), and at most `match_count` rows
are returned. -/
theorem match_information_contract (table : List Row) (cosDist : Embedding → Embedding → ℚ)
    (query_embedding : Embedding) (match_count : Nat) (match_threshold : ℚ)
    (filter : Option Jsonb) :
    (∀ r ∈ match_information table cosDist query_embedding match_count match_threshold filter,
        match_threshold < r.similarity) ∧
    List.Pairwise (fun a b : SearchResult => b.similarity ≤ a.similarity)
      (match_information table cosDist query_embedding match_count match_threshold filter) ∧
    (match_information table cosDist query_embedding match_count match_threshold filter).length
      ≤ match_count := by
  unfold match_information
  set d : Row → ℚ := fun r => cosDist r.embedding query_embedding with hd
  set keep : Row → Bool := fun r =>
    (match filter with
     | none => true
     | some f => jcontains r.metadata f)
    && decide (match_threshold < 1 - cosDist r.embedding query_embedding) with hkeep
  set le : Row → Row → Bool := fun a b => decide (d a ≤ d b) with hle
  refine ⟨?_, ?_, ?_⟩
  · intro r hr
    rw [List.mem_map] at hr
    obtain ⟨row, hrow, hres⟩ := hr
    have hmem : row ∈ (table.filter keep).mergeSort le := List.mem_of_mem_take hrow
    have hmem2 : row ∈ table.filter keep :=
      (List.mergeSort_perm (table.filter keep) le).mem_iff.mp hmem
    have hkeepr : keep row = true := List.of_mem_filter hmem2
    rw [hkeep] at hkeepr
    simp only [Bool.and_eq_true, decide_eq_true_eq] at hkeepr
    rw [← hres]
    exact hkeepr.2
  · rw [List.pairwise_map]
    have hsorted : List.Pairwise (fun a b => le a b = true) ((table.filter keep).mergeSort le) := by
      apply List.sorted_mergeSort
      · intro a b c hab hbc
        rw [hle] at hab hbc ⊢
        simp only [decide_eq_true_eq] at hab hbc ⊢
        exact le_trans hab hbc
      · intro a b
        rw [hle]
        simp only [Bool.or_eq_true, decide_eq_true_eq]
        exact le_total (d a) (d b)
    have htake : List.Pairwise (fun a b => le a b = true)
        (((table.filter keep).mergeSort le).take match_count) :=
      List.Pairwise.sublist (List.take_sublist _ _) hsorted
    refine htake.imp ?_
    intro a b hab
    rw [hle] at hab
    simp only [decide_eq_true_eq] at hab
    simp only
    exact sub_le_sub_left hab 1
  · rw [List.length_map, List.length_take]
    omega

/-- Claim C9: `retrieveByMetadataField` is exactly `retrieveInformation`
with the threshold forced to 0 and the single-key filter `{field: value}`,
and `retrieveByName` is exactly `retrieveInformation` with threshold 0 and
the single-key filter `{name: name}` (on the query "Information about
<name>"). -/
theorem retrieve_wrappers (env : QueryEnv) (userQuery field : String) (value : Jsonb)
    (name : String) (k k2 : Nat) :
    retrieveByMetadataField env userQuery field value k =
      retrieveInformation env userQuery k 0 (some (Jsonb.obj [(field, value)])) ∧
    retrieveByName env name k2 =
      retrieveInformation env ("Information about " ++ name) k2 0
        (some (Jsonb.obj [("name", Jsonb.str name)])) :=
  ⟨rfl, rfl⟩

/-- The canned no-context result of `getEnhancedAnswer`. -/
theorem getEnhancedAnswer_empty_cases (env : QueryEnv) (question : String) (k : Nat)
    (thr : ℚ)
    (h : (retrieveInformation env question k thr none).error.isSome ∨
      (retrieveInformation env question k thr none).data = some []) :
    getEnhancedAnswer env question k thr =
      { answer := some noContextAnswer, sources := some [],
        context := some { retrievedCount := 0, model := none, tokensUsed := none },
        error := none } := by
  cases hE : (retrieveInformation env question k thr none).error with
  | some e => simp only [getEnhancedAnswer, hE]
  | none =>
    cases hD : (retrieveInformation env question k thr none).data with
    | none => simp only [getEnhancedAnswer, hE, hD]
    | some rows =>
      have hrows : rows = [] := by
        rcases h with h | h
        · rw [hE] at h
          simp at h
        · rw [hD] at h
          simpa using h.symm
      subst hrows
      simp only [getEnhancedAnswer, hE, hD, List.isEmpty_nil, if_true]

/-- Claim C5: when retrieval succeeds but returns zero rows above the
threshold, `getEnhancedAnswer` returns the canned could-not-find answer
with `sources = []`, `context.retrievedCount = 0` and `error = null`. -/
theorem getEnhancedAnswer_noMatch (env : QueryEnv) (question : String) (k : Nat) (thr : ℚ)
    (h : (retrieveInformation env question k thr none).data = some []) :
    getEnhancedAnswer env question k thr =
      { answer := some noContextAnswer, sources := some [],
        context := some { retrievedCount := 0, model := none, tokensUsed := none },
        error := none } :=
  getEnhancedAnswer_empty_cases env question k thr (Or.inr h)

/-- Witness for C5: with an empty table every search returns zero rows and
the canned soft-fail result comes back. -/
theorem getEnhancedAnswer_noMatch_witness :
    (retrieveInformation emptyTableEnv "query" 5 0 none).data = some [] ∧
    getEnhancedAnswer emptyTableEnv "query" 5 0 =
      { answer := some noContextAnswer, sources := some [],
        context := some { retrievedCount := 0, model := none, tokensUsed := none },
        error := none } := by
  have h : (retrieveInformation emptyTableEnv "query" 5 0 none).data = some [] := by
    simp [retrieveInformation, generateQueryEmbedding, emptyTableEnv, match_information]
  exact ⟨h, getEnhancedAnswer_noMatch emptyTableEnv "query" 5 0 h⟩

/-- Claim C10: when the underlying retrieval fails with an error (the
embedding call or the search RPC), `getEnhancedAnswer` does not surface
the error: it returns the same canned could-not-find answer with
`error = null`, `sources = []` and `context.retrievedCount = 0`, so a
retrieval failure is indistinguishable from a genuine no-match. -/
theorem getEnhancedAnswer_swallowsRetrievalError (env : QueryEnv) (question : String)
    (k : Nat) (thr : ℚ) (e : String)
    (h : (retrieveInformation env question k thr none).error = some e) :
    getEnhancedAnswer env question k thr =
      { answer := some noContextAnswer, sources := some [],
        context := some { retrievedCount := 0, model := none, tokensUsed := none },
        error := none } :=
  getEnhancedAnswer_empty_cases env question k thr (Or.inl (by rw [h]; rfl))

/-- Witness for C10: a failing embedding call produces the very same
canned result as a no-match. -/
theorem getEnhancedAnswer_swallowsRetrievalError_witness :
    (retrieveInformation embedFailEnv "query" 5 0 none).error = some "rate limit exceeded" ∧
    getEnhancedAnswer embedFailEnv "query" 5 0 =
      { answer := some noContextAnswer, sources := some [],
        context := some { retrievedCount := 0, model := none, tokensUsed := none },
        error := none } :=
  ⟨rfl, getEnhancedAnswer_swallowsRetrievalError embedFailEnv "query" 5 0
    "rate limit exceeded" rfl⟩

/-- The per-chunk embedding loop never reads the delete outcome. -/
theorem embedChunksAux_deleteError (env : IngestEnv) (e : Option String)
    (filename : String) (fileMetadata : List (String × Jsonb)) (totalChunks : Nat)
    (chunks : List String) (i : Nat) :
    embedChunksAux { env with deleteError := e } filename fileMetadata totalChunks chunks i =
      embedChunksAux env filename fileMetadata totalChunks chunks i := by
  induction chunks generalizing i with
  | nil => rfl
  | cons chunk rest ih =>
    simp only [embedChunksAux, generateEmbedding]
    cases env.embed chunk with
    | error err => rfl
    | ok embedding => simp [ih]

/-- Per-document processing never reads the delete outcome. -/
theorem processFile_deleteError (env : IngestEnv) (e : Option String)
    (filename content : String) :
    processFile { env with deleteError := e } filename content =
      processFile env filename content := by
  simp only [processFile, extractMetadataWithAI, embedChunksAux_deleteError]

/-- The whole ingest-and-embed phase never reads the delete outcome. -/
theorem ingestAndEmbed_deleteError (env : IngestEnv) (e : Option String) :
    ingestAndEmbed { env with deleteError := e } = ingestAndEmbed env := by
  simp only [ingestAndEmbed, readInfoFiles, processFile_deleteError]

/-- Claim C3 (amended): `runIngestion` awaits `clearDatabase` but never
reads its `{success, error}` result (`clearDatabase` catches the delete
failure internally), so the outcome of the run is entirely independent of
whether the delete succeeded: a failed delete is NOT fatal, the run
proceeds to process documents and returns exactly what it would have
returned had the delete succeeded. -/
theorem runIngestion_ignores_clearFailure (env : IngestEnv) (e : Option String)
    (clearFirst : Bool) :
    runIngestion { env with deleteError := e } clearFirst = runIngestion env clearFirst := by
  simp only [runIngestion, ingestAndEmbed_deleteError]

/-- Counterexample to Claim C3 as stated: in `deleteFailEnv` the delete
fails, yet `runIngestion(clearFirst = true)` reports `success: true`,
processes the single document and creates its chunk — it neither returns
`success: false` nor stops before processing. -/
theorem runIngestion_clearFailure_counterexample :
    deleteFailEnv.deleteError = some "delete failed" ∧
    (clearDatabase deleteFailEnv).success = false ∧
    runIngestion deleteFailEnv true =
      { success := true, filesProcessed := some 1, chunksCreated := some 1,
        error := none, message := "Ingestion completed successfully" } :=
  ⟨rfl, rfl, rfl⟩

/-- With an all-succeeding embedder the chunk loop embeds every chunk and
reports no error. -/
theorem embedChunksAux_allOk (env : IngestEnv) (filename : String)
    (fileMetadata : List (String × Jsonb)) (totalChunks : Nat)
    (hemb : ∀ c, ∃ v, env.embed c = .ok v) (chunks : List String) (i : Nat) :
    (embedChunksAux env filename fileMetadata totalChunks chunks i).1.length = chunks.length ∧
    (embedChunksAux env filename fileMetadata totalChunks chunks i).2 = none := by
  induction chunks generalizing i with
  | nil => exact ⟨rfl, rfl⟩
  | cons chunk rest ih =>
    obtain ⟨v, hv⟩ := hemb chunk
    have := ih (i + 1)
    simp only [embedChunksAux, generateEmbedding, hv]
    simp [this.1, this.2]

/-- Claim C4 (amended): when the metadata-extraction model call throws,
`extractMetadataWithAI` returns a metadata object with exactly the fields
`source_filename`, `file_type` (the inferred extension type),
`extracted_at` (the timestamp) and `extraction_error` (the failure
message) — the claimed `extraction_model` identifier is NOT among them —
and no content field (name, skills, ...); ingestion of the document
continues: with a working embedder the document still yields one embedded
record per chunk and no per-document error. -/
theorem extractMetadataWithAI_failure (env : IngestEnv) (content filename e : String)
    (hx : env.chatExtract content = .error e)
    (hemb : ∀ c, ∃ v, env.embed c = .ok v) :
    extractMetadataWithAI env content filename =
      [("source_filename", .str filename),
       ("file_type", .str (fileTypeOf filename)),
       ("extracted_at", .str env.now),
       ("extraction_error", .str e)] ∧
    (processFile env filename content).1.length = (chunkTextD content 300 50).length ∧
    (processFile env filename content).2 = none := by
  refine ⟨?_, ?_, ?_⟩
  · simp [extractMetadataWithAI, hx]
  · exact (embedChunksAux_allOk env filename _ _ hemb _ 0).1
  · exact (embedChunksAux_allOk env filename _ _ hemb _ 0).2

/-- Witness for C4 (amended) in `extractFailEnv`. -/
theorem extractMetadataWithAI_failure_witness :
    extractMetadataWithAI extractFailEnv "x" "a.txt" =
      [("source_filename", .str "a.txt"),
       ("file_type", .str (fileTypeOf "a.txt")),
       ("extracted_at", .str "2026-01-01T00:00:00.000Z"),
       ("extraction_error", .str "model unavailable")] ∧
    (processFile extractFailEnv "a.txt" "x").1.length = 1 ∧
    (processFile extractFailEnv "a.txt" "x").2 = none := by
  have h := extractMetadataWithAI_failure extractFailEnv "x" "a.txt" "model unavailable"
    rfl (fun c => ⟨[], rfl⟩)
  exact ⟨h.1, by rw [h.2.1]; decide, h.2.2⟩

/-- Counterexample to Claim C4 as stated: on the failure path the returned
metadata keys are exactly `source_filename`, `file_type`, `extracted_at`,
`extraction_error` — the model identifier `extraction_model`, which the
claim lists among the provenance fields, is absent. -/
theorem extractMetadataWithAI_failure_counterexample :
    (extractMetadataWithAI extractFailEnv "x" "a.txt").map Prod.fst =
      ["source_filename", "file_type", "extracted_at", "extraction_error"] ∧
    "extraction_model" ∉ (extractMetadataWithAI extractFailEnv "x" "a.txt").map Prod.fst := by
  refine ⟨rfl, by decide⟩
